import Mathlib

/-!
Verification of the raymarching module of torch-ngp
(`raymarching/raymarching.py`), a shallow embedding in Lean 4.

Conventions of the embedding:
* python floats are modelled by `ℚ` (exact arithmetic; division by zero is
  total and yields `0`, as in Mathlib);
* python ints are modelled by `ℤ` (or `ℕ` where the value is an index);
* tensors are modelled by lists (rowwise), elementwise tensor operations by
  per-row functions;
* the CUDA kernels behind `_backend.*` are not part of the python source;
  where a claim depends only on the python glue, the kernel is an opaque
  parameter (a function, or a list of row writes); where a claim is about a
  kernel itself, the kernel is modelled from the spec and marked so.
-/

namespace Raymarching

/-! ## `_near_far_from_aabb.backward` (python, lines 62-133)

Per-row embedding of `get_indicator` and of the gradient tensors built in
`backward`.  All tensor operations there are elementwise or row-broadcast,
so one row (one ray) carries the whole content. -/

/-- Row `i` of the `[N, 3]` indicator built by `_near_far_from_aabb.get_indicator`:
`near_dim = indices % 3`; a zero matrix gets `1.` at `[i, near_dim]`, and rows
whose index is the sentinel `255` get that entry reset to `0.`. -/
def get_indicator (index : ℕ) (j : Fin 3) : ℚ :=
  if (j : ℕ) = index % 3 then (if index = 255 then 0 else 1) else 0

/-- Row of `dtnear_dray_o = indicator_near * -1. / rays_d` (and likewise
`dtfar_dray_o` with the far index). -/
def dt_dray_o (index : ℕ) (d : Fin 3 → ℚ) (j : Fin 3) : ℚ :=
  get_indicator index j * -1 / d j

/-- Row of `dtnear_dray_d = indicator_near * (rays_o / rays_d_sq - aabb_near / rays_d_sq)`
with `rays_d_sq = rays_d * rays_d` and `aabb_near = aabb[near_indices % 6]`
(and likewise `dtfar_dray_d` with the far index). -/
def dt_dray_d (index : ℕ) (aabb : Fin 6 → ℚ) (o d : Fin 3 → ℚ) (j : Fin 3) : ℚ :=
  get_indicator index j *
    (o j / (d j * d j) - aabb ⟨index % 6, Nat.mod_lt _ (by norm_num)⟩ / (d j * d j))

/-- Row of `dL_drays_o = dL_dnears_r * dtnear_dray_o + dL_dfars_r * dtfar_dray_o`. -/
def dL_drays_o_row (ni fi : ℕ) (d : Fin 3 → ℚ) (dLn dLf : ℚ) (j : Fin 3) : ℚ :=
  dLn * dt_dray_o ni d j + dLf * dt_dray_o fi d j

/-- Row of `dL_drays_d = dL_dnears_r * dtnear_dray_d + dL_dfars_r * dtfar_dray_d`. -/
def dL_drays_d_row (ni fi : ℕ) (aabb : Fin 6 → ℚ) (o d : Fin 3 → ℚ)
    (dLn dLf : ℚ) (j : Fin 3) : ℚ :=
  dLn * dt_dray_d ni aabb o d j + dLf * dt_dray_d fi aabb o d j

/-! ## `_composite_rays_train.backward` (python, lines 431-451)

The backward receives `(grad_weights_sum, grad_depth, grad_image)`, allocates
zero gradient buffers and hands
`(grad_weights_sum, grad_image, sigmas, rgbs, deltas, rays, weights_sum, image)`
to the CUDA kernel `_backend.composite_rays_train_backward`, which fills the
buffers.  The kernel is opaque here: it is a parameter producing
`(grad_sigmas, grad_rgbs)` from exactly the arguments the python passes. -/

/-- Tensors saved by `_composite_rays_train.forward` via `ctx.save_for_backward`. -/
structure CompositeSaved where
  sigmas : List ℚ
  rgbs : List (ℚ × ℚ × ℚ)
  deltas : List (ℚ × ℚ)
  rays : List (ℤ × ℤ × ℤ)
  weights_sum : List ℚ
  depth : List ℚ
  image : List (ℚ × ℚ × ℚ)

/-- Argument signature of the opaque CUDA kernel
`_backend.composite_rays_train_backward`: it sees `grad_weights_sum` and
`grad_image`, plus the saved `sigmas, rgbs, deltas, rays, weights_sum, image`,
and yields `(grad_sigmas, grad_rgbs)`. -/
def CompositeBwdKernel : Type :=
  List ℚ → List (ℚ × ℚ × ℚ) → List ℚ → List (ℚ × ℚ × ℚ) → List (ℚ × ℚ) →
    List (ℤ × ℤ × ℤ) → List ℚ → List (ℚ × ℚ × ℚ) → List ℚ × List (ℚ × ℚ × ℚ)

/-- Embedding of `_composite_rays_train.backward`: the incoming `grad_depth`
is accepted but never forwarded to the kernel. -/
def composite_rays_train_backward (kernel : CompositeBwdKernel)
    (grad_weights_sum : List ℚ) (grad_depth : List ℚ)
    (grad_image : List (ℚ × ℚ × ℚ)) (saved : CompositeSaved) :
    List ℚ × List (ℚ × ℚ × ℚ) :=
  kernel grad_weights_sum grad_image saved.sigmas saved.rgbs saved.deltas
    saved.rays saved.weights_sum saved.image

/-! ### Theorems for C2 and C3 -/

/-- C2: the backward of `near_far_from_aabb` routes gradient only through the
axis recorded for each bound.  For a recorded plane index `k < 6` with axis
`a = k % 3`: the per-axis derivative tensors satisfy
`dt_dray_o = -1 / direction_a` and
`dt_dray_d = (origin_a - aabb[k]) / direction_a²` at axis `a` and vanish on
every other axis; rows whose near and far indices are both the sentinel `255`
contribute exactly zero to `dL_drays_o` and `dL_drays_d`.  The same functions
embed both the near- and the far-index tensors. -/
theorem near_far_backward_selective_gradient (k : ℕ) (hk : k < 6)
    (o d : Fin 3 → ℚ) (aabb : Fin 6 → ℚ) (a : Fin 3) (ha : (a : ℕ) = k % 3) :
    dt_dray_o k d a = -1 / d a ∧
    dt_dray_d k aabb o d a = (o a - aabb ⟨k, hk⟩) / (d a * d a) ∧
    (∀ j : Fin 3, (j : ℕ) ≠ k % 3 →
      dt_dray_o k d j = 0 ∧ dt_dray_d k aabb o d j = 0) ∧
    (∀ dLn dLf : ℚ, ∀ j : Fin 3,
      dL_drays_o_row 255 255 d dLn dLf j = 0 ∧
      dL_drays_d_row 255 255 aabb o d dLn dLf j = 0) := by
  have hk255 : k ≠ 255 := by omega
  have hind : get_indicator k a = 1 := by
    simp [get_indicator, ha, hk255]
  have hfin : (⟨k % 6, Nat.mod_lt _ (by norm_num)⟩ : Fin 6) = ⟨k, hk⟩ := by
    apply Fin.ext
    simp [Nat.mod_eq_of_lt hk]
  refine ⟨?_, ?_, ?_, ?_⟩
  · simp [dt_dray_o, hind]
  · simp [dt_dray_d, hind, hfin, div_sub_div_same]
  · intro j hj
    have hind0 : get_indicator k j = 0 := by
      simp [get_indicator, hj]
    constructor
    · simp [dt_dray_o, hind0]
    · simp [dt_dray_d, hind0]
  · intro dLn dLf j
    have hind255 : get_indicator 255 j = 0 := by
      unfold get_indicator
      by_cases hj : (j : ℕ) = 255 % 3 <;> simp [hj]
    constructor
    · simp [dL_drays_o_row, dt_dray_o, hind255]
    · simp [dL_drays_d_row, dt_dray_d, hind255]

/-- Witness for C2 at a concrete ray: plane index `k = 4` (axis `1`),
`o = (1, 2, 3)`, `d = (1, 1, 2)`, `aabb = (0, 0, 0, 1, 1, 1)`. -/
theorem near_far_backward_selective_gradient_witness :
    dt_dray_o 4 (fun _ => 2) 1 = -1 / 2 ∧
    dt_dray_d 4 (fun _ => 1) (fun _ => 3) (fun _ => 2) 1 = (3 - 1) / (2 * 2) ∧
    (∀ j : Fin 3, (j : ℕ) ≠ 4 % 3 →
      dt_dray_o 4 (fun _ => 2) j = 0 ∧
      dt_dray_d 4 (fun _ => 1) (fun _ => 3) (fun _ => 2) j = 0) ∧
    (∀ dLn dLf : ℚ, ∀ j : Fin 3,
      dL_drays_o_row 255 255 (fun _ => 2) dLn dLf j = 0 ∧
      dL_drays_d_row 255 255 (fun _ => 1) (fun _ => 3) (fun _ => 2) dLn dLf j = 0) :=
  near_far_backward_selective_gradient 4 (by norm_num)
    (fun _ => 3) (fun _ => 2) (fun _ => 1) 1 rfl

/-- C3: the backward of `composite_rays_train` is insensitive to the incoming
gradient on `depth`: for every kernel behaviour, every set of saved tensors
and every pair of depth gradients, the produced `(grad_sigmas, grad_rgbs)`
coincide, because `grad_depth` is never handed to the backend. -/
theorem composite_backward_depth_noninterference (kernel : CompositeBwdKernel)
    (saved : CompositeSaved) (grad_weights_sum : List ℚ)
    (grad_image : List (ℚ × ℚ × ℚ)) (grad_depth₁ grad_depth₂ : List ℚ) :
    composite_rays_train_backward kernel grad_weights_sum grad_depth₁
        grad_image saved =
      composite_rays_train_backward kernel grad_weights_sum grad_depth₂
        grad_image saved := rfl

/-! ## Buffer sizing of `_march_rays_train.forward` (python, lines 305-357)
and `_march_rays.forward` (python, lines 504-527)

The python allocates zero-filled buffers of `M` rows, lets the CUDA kernel
write some rows, and on one path trims with a python slice.  The kernel is
opaque: it is modelled as a list of row writes `(index, value)` applied to the
zero buffer (the real kernel only writes in bounds; `List.set` is likewise a
no-op out of range), plus the emitted-sample count it stores in
`step_counter[0]`. -/

/-- Apply a list of kernel row writes to a buffer. -/
def applyWrites {α : Type} (buf : List α) (ws : List (ℕ × α)) : List α :=
  ws.foldl (fun b w => b.set w.1 w.2) buf

/-- The `mean_count += align - mean_count % align` / `m += align - m % align` /
`M += align - (M % align)` pattern, applied under its `align > 0` guard. -/
def alignUp (m align : ℤ) : ℤ :=
  if 0 < align then m + (align - m % align) else m

/-- Capacity `M` chosen by `_march_rays_train.forward`:
`M = N * max_steps`, overridden by the (align-adjusted) `mean_count` when
`force_all_rays` is false and `mean_count > 0`. -/
def march_train_capacity (N max_steps mean_count align : ℤ)
    (force_all_rays : Bool) : ℤ :=
  if force_all_rays = false ∧ 0 < mean_count then alignUp mean_count align
  else N * max_steps

/-- Outputs `(xyzs, dirs, deltas)` of a marcher, rowwise. -/
structure MarchOut where
  xyzs : List (ℚ × ℚ × ℚ)
  dirs : List (ℚ × ℚ × ℚ)
  deltas : List (ℚ × ℚ)

/-- Buffer behaviour of `_march_rays_train.forward`: allocate zero buffers of
`M` rows, apply the kernel writes, then on the `force_all_rays or
mean_count <= 0` path trim each buffer with the python slice `[:m]` where
`m` is `step_counter[0]` adjusted by `align`. -/
def march_rays_train_fwd (N max_steps mean_count align : ℤ)
    (force_all_rays : Bool) (kxyzs kdirs : List (ℕ × (ℚ × ℚ × ℚ)))
    (kdeltas : List (ℕ × (ℚ × ℚ))) (stepCount : ℤ) : MarchOut :=
  let M := march_train_capacity N max_steps mean_count align force_all_rays
  let xyzs := applyWrites (List.replicate M.toNat ((0 : ℚ), (0 : ℚ), (0 : ℚ))) kxyzs
  let dirs := applyWrites (List.replicate M.toNat ((0 : ℚ), (0 : ℚ), (0 : ℚ))) kdirs
  let deltas := applyWrites (List.replicate M.toNat ((0 : ℚ), (0 : ℚ))) kdeltas
  if force_all_rays = true ∨ mean_count ≤ 0 then
    let m := alignUp stepCount align
    ⟨xyzs.take m.toNat, dirs.take m.toNat, deltas.take m.toNat⟩
  else ⟨xyzs, dirs, deltas⟩

/-- Chunk size `M` of the inference marcher `_march_rays.forward`:
`M = n_alive * n_step`, then `M += align - (M % align)` when `align > 0`. -/
def march_rays_chunk (n_alive n_step align : ℤ) : ℤ :=
  alignUp (n_alive * n_step) align

/-- Buffer behaviour of `_march_rays.forward`: zero buffers of `M` rows,
written by the kernel, never trimmed. -/
def march_rays_fwd (n_alive n_step align : ℤ)
    (kxyzs kdirs : List (ℕ × (ℚ × ℚ × ℚ)))
    (kdeltas : List (ℕ × (ℚ × ℚ))) : MarchOut :=
  let M := march_rays_chunk n_alive n_step align
  ⟨applyWrites (List.replicate M.toNat ((0 : ℚ), (0 : ℚ), (0 : ℚ))) kxyzs,
   applyWrites (List.replicate M.toNat ((0 : ℚ), (0 : ℚ), (0 : ℚ))) kdirs,
   applyWrites (List.replicate M.toNat ((0 : ℚ), (0 : ℚ))) kdeltas⟩

/-- What the spec words "rounded up to a multiple of `align`" denote: the
least multiple of `align` that is `≥ m` (for `align > 0`). -/
def roundUpMultipleSpec (m align : ℤ) : ℤ :=
  if m % align = 0 then m else m + (align - m % align)

/-! ### Helper lemmas on `applyWrites` -/

theorem applyWrites_length {α : Type} (ws : List (ℕ × α)) (buf : List α) :
    (applyWrites buf ws).length = buf.length := by
  induction ws generalizing buf with
  | nil => rfl
  | cons w ws ih =>
    show (applyWrites (buf.set w.1 w.2) ws).length = buf.length
    rw [ih, List.length_set]

theorem applyWrites_getElem?_of_not_mem {α : Type} (ws : List (ℕ × α))
    (buf : List α) (i : ℕ) (hi : i ∉ ws.map Prod.fst) :
    (applyWrites buf ws)[i]? = buf[i]? := by
  induction ws generalizing buf with
  | nil => rfl
  | cons w ws ih =>
    have hne : w.1 ≠ i := by
      intro h
      exact hi (by simp [h])
    have hi' : i ∉ ws.map Prod.fst := by
      intro h
      exact hi (by simp [h])
    show (applyWrites (buf.set w.1 w.2) ws)[i]? = buf[i]?
    rw [ih _ hi', List.getElem?_set_ne hne]

/-! ### Theorems for C4, C5, C8, C10 -/

/-- C4, counterexample: with `mean_count = 8` and `align = 4` (a count already
aligned), `_march_rays_train.forward` sets `M = 12`, not `8`, so `M` is not
`mean_count` rounded up to a multiple of `align`. -/
theorem march_train_capacity_not_rounded_up :
    march_train_capacity 1 16 8 4 false = 12 ∧
    roundUpMultipleSpec 8 4 = 8 ∧
    march_train_capacity 1 16 8 4 false ≠ roundUpMultipleSpec 8 4 := by
  decide

/-- C4, amended: `M = N * max_steps` by default; when `force_all_rays` is
false and `mean_count > 0`, `M` is `mean_count + (align - mean_count % align)`
when `align > 0` (the next multiple of `align` strictly above `mean_count`
when `align` already divides it) and `mean_count` otherwise, and the
`xyzs`/`dirs`/`deltas` buffers are allocated with exactly `M` rows. -/
theorem march_train_capacity_allocation (N max_steps mean_count align : ℤ)
    (fa : Bool) (kxyzs kdirs : List (ℕ × (ℚ × ℚ × ℚ)))
    (kdeltas : List (ℕ × (ℚ × ℚ))) (sc : ℤ) :
    ((fa = true ∨ mean_count ≤ 0) →
      march_train_capacity N max_steps mean_count align fa = N * max_steps) ∧
    (fa = false → 0 < mean_count → 0 < align →
      march_train_capacity N max_steps mean_count align fa =
        mean_count + (align - mean_count % align)) ∧
    (fa = false → 0 < mean_count → align ≤ 0 →
      march_train_capacity N max_steps mean_count align fa = mean_count) ∧
    (fa = false → 0 < mean_count →
      ((march_rays_train_fwd N max_steps mean_count align fa
            kxyzs kdirs kdeltas sc).xyzs.length =
          (march_train_capacity N max_steps mean_count align fa).toNat ∧
        (march_rays_train_fwd N max_steps mean_count align fa
            kxyzs kdirs kdeltas sc).dirs.length =
          (march_train_capacity N max_steps mean_count align fa).toNat ∧
        (march_rays_train_fwd N max_steps mean_count align fa
            kxyzs kdirs kdeltas sc).deltas.length =
          (march_train_capacity N max_steps mean_count align fa).toNat)) := by
  refine ⟨?_, ?_, ?_, ?_⟩
  · intro h
    unfold march_train_capacity
    rw [if_neg]
    rcases h with h | h
    · simp [h]
    · rintro ⟨-, h'⟩
      omega
  · intro hfa hmc hal
    unfold march_train_capacity alignUp
    rw [if_pos ⟨hfa, hmc⟩, if_pos hal]
  · intro hfa hmc hal
    unfold march_train_capacity alignUp
    rw [if_pos ⟨hfa, hmc⟩, if_neg (by omega)]
  · intro hfa hmc
    subst hfa
    unfold march_rays_train_fwd
    rw [if_neg (by simp; omega)]
    simp [applyWrites_length]

/-- C4 witness: concrete amortized call `N = 1`, `max_steps = 16`,
`mean_count = 8`, `align = 4`. -/
theorem march_train_capacity_allocation_witness :
    march_train_capacity 1 16 8 4 false = 8 + (4 - 8 % 4) :=
  (march_train_capacity_allocation 1 16 8 4 false [] [] [] 0).2.1 rfl
    (by norm_num) (by norm_num)

/-- C5, counterexample: on the trimming path (`mean_count = -1`) with
`step_counter[0] = 8` and `align = 4`, the outputs are cut to `12` rows, not
to the emitted count `8` rounded up to a multiple of `align` (which is `8`). -/
theorem march_train_trim_not_rounded_up :
    (march_rays_train_fwd 1 100 (-1) 4 false [] [] [] 8).xyzs.length = 12 ∧
    (roundUpMultipleSpec 8 4).toNat = 8 ∧
    (march_rays_train_fwd 1 100 (-1) 4 false [] [] [] 8).xyzs.length ≠
      (roundUpMultipleSpec 8 4).toNat := by
  decide

/-- C5, amended: when `force_all_rays` is true or `mean_count ≤ 0`, the
outputs are trimmed to `m = step_counter[0] + (align - step_counter[0] % align)`
rows when `align > 0` (to `step_counter[0]` rows when `align ≤ 0`), clamped by
the allocated capacity `M`; on every other path the outputs keep all `M`
allocated rows (no trimming). -/
theorem march_train_trim_lengths (N max_steps mean_count align : ℤ)
    (fa : Bool) (kxyzs kdirs : List (ℕ × (ℚ × ℚ × ℚ)))
    (kdeltas : List (ℕ × (ℚ × ℚ))) (sc : ℤ) :
    ((fa = true ∨ mean_count ≤ 0) →
      ((march_rays_train_fwd N max_steps mean_count align fa
            kxyzs kdirs kdeltas sc).xyzs.length =
          min (alignUp sc align).toNat
            (march_train_capacity N max_steps mean_count align fa).toNat ∧
        (march_rays_train_fwd N max_steps mean_count align fa
            kxyzs kdirs kdeltas sc).dirs.length =
          min (alignUp sc align).toNat
            (march_train_capacity N max_steps mean_count align fa).toNat ∧
        (march_rays_train_fwd N max_steps mean_count align fa
            kxyzs kdirs kdeltas sc).deltas.length =
          min (alignUp sc align).toNat
            (march_train_capacity N max_steps mean_count align fa).toNat)) ∧
    (fa = false → 0 < mean_count →
      ((march_rays_train_fwd N max_steps mean_count align fa
            kxyzs kdirs kdeltas sc).xyzs.length =
          (march_train_capacity N max_steps mean_count align fa).toNat ∧
        (march_rays_train_fwd N max_steps mean_count align fa
            kxyzs kdirs kdeltas sc).dirs.length =
          (march_train_capacity N max_steps mean_count align fa).toNat ∧
        (march_rays_train_fwd N max_steps mean_count align fa
            kxyzs kdirs kdeltas sc).deltas.length =
          (march_train_capacity N max_steps mean_count align fa).toNat)) := by
  constructor
  · intro h
    unfold march_rays_train_fwd
    rw [if_pos h]
    simp [List.length_take, applyWrites_length, Nat.min_comm]
  · intro hfa hmc
    subst hfa
    unfold march_rays_train_fwd
    rw [if_neg (by simp; omega)]
    simp [applyWrites_length]

/-- C5 witness: concrete trim-path call, `mean_count = -1`, `align = 4`,
emitted count `8`. -/
theorem march_train_trim_lengths_witness :
    (march_rays_train_fwd 1 100 (-1) 4 false [] [] [] 8).xyzs.length =
      min (alignUp 8 4).toNat (march_train_capacity 1 100 (-1) 4 false).toNat :=
  ((march_train_trim_lengths 1 100 (-1) 4 false [] [] [] 8).1
    (Or.inr (by norm_num))).1

/-- C8, counterexample: with `n_alive = 2`, `n_step = 4`, `align = 4`, the
inference marcher allocates `12` rows, not `n_alive * n_step = 8` padded up
to a multiple of `align` (which is `8`). -/
theorem march_rays_chunk_not_padded_minimally :
    (march_rays_fwd 2 4 4 [] [] []).xyzs.length = 12 ∧
    (roundUpMultipleSpec (2 * 4) 4).toNat = 8 ∧
    (march_rays_fwd 2 4 4 [] [] []).xyzs.length ≠
      (roundUpMultipleSpec (2 * 4) 4).toNat := by
  decide

/-- C8, amended: `_march_rays.forward` returns buffers of exactly
`n_alive * n_step` rows when `align ≤ 0`, and of
`n_alive * n_step + (align - (n_alive * n_step) % align)` rows when
`align > 0` (a multiple of `align`, exceeding `n_alive * n_step` by a full
`align` when `align` already divides it). -/
theorem march_rays_buffer_lengths (n_alive n_step align : ℤ)
    (kxyzs kdirs : List (ℕ × (ℚ × ℚ × ℚ))) (kdeltas : List (ℕ × (ℚ × ℚ))) :
    (align ≤ 0 →
      ((march_rays_fwd n_alive n_step align kxyzs kdirs kdeltas).xyzs.length =
          (n_alive * n_step).toNat ∧
        (march_rays_fwd n_alive n_step align kxyzs kdirs kdeltas).dirs.length =
          (n_alive * n_step).toNat ∧
        (march_rays_fwd n_alive n_step align kxyzs kdirs kdeltas).deltas.length =
          (n_alive * n_step).toNat)) ∧
    (0 < align →
      ((march_rays_fwd n_alive n_step align kxyzs kdirs kdeltas).xyzs.length =
          (n_alive * n_step +
            (align - (n_alive * n_step) % align)).toNat ∧
        (march_rays_fwd n_alive n_step align kxyzs kdirs kdeltas).dirs.length =
          (n_alive * n_step +
            (align - (n_alive * n_step) % align)).toNat ∧
        (march_rays_fwd n_alive n_step align kxyzs kdirs kdeltas).deltas.length =
          (n_alive * n_step +
            (align - (n_alive * n_step) % align)).toNat)) := by
  constructor
  · intro h
    unfold march_rays_fwd march_rays_chunk alignUp
    rw [if_neg (by omega)]
    simp [applyWrites_length]
  · intro h
    unfold march_rays_fwd march_rays_chunk alignUp
    rw [if_pos h]
    simp [applyWrites_length]

/-- C8 witness: concrete chunk `n_alive = 2`, `n_step = 4`, `align = 4`. -/
theorem march_rays_buffer_lengths_witness :
    (march_rays_fwd 2 4 4 [] [] []).xyzs.length =
      (2 * 4 + (4 - (2 * 4 : ℤ) % 4)).toNat :=
  ((march_rays_buffer_lengths 2 4 4 [] [] []).2 (by norm_num)).1

/-- C10: in amortized mode (`force_all_rays` false, `mean_count > 0`) the
outputs of `_march_rays_train.forward` keep all `M` allocated rows whatever
the emitted count `step_counter[0]` was, and every row the kernel did not
write is exactly the zero row, because the buffers are zero-initialized and
this path never trims. -/
theorem march_train_amortized_full_length_zero_rows
    (N max_steps mean_count align : ℤ)
    (kxyzs kdirs : List (ℕ × (ℚ × ℚ × ℚ))) (kdeltas : List (ℕ × (ℚ × ℚ)))
    (sc : ℤ) (hmc : 0 < mean_count) (i : ℕ)
    (hx : i ∉ kxyzs.map Prod.fst) (hd : i ∉ kdirs.map Prod.fst)
    (hdel : i ∉ kdeltas.map Prod.fst)
    (hi : i < (march_train_capacity N max_steps mean_count align false).toNat) :
    (march_rays_train_fwd N max_steps mean_count align false
        kxyzs kdirs kdeltas sc).xyzs.length =
      (march_train_capacity N max_steps mean_count align false).toNat ∧
    (march_rays_train_fwd N max_steps mean_count align false
        kxyzs kdirs kdeltas sc).xyzs[i]? = some (0, 0, 0) ∧
    (march_rays_train_fwd N max_steps mean_count align false
        kxyzs kdirs kdeltas sc).dirs[i]? = some (0, 0, 0) ∧
    (march_rays_train_fwd N max_steps mean_count align false
        kxyzs kdirs kdeltas sc).deltas[i]? = some (0, 0) := by
  unfold march_rays_train_fwd
  rw [if_neg (by simp; omega)]
  refine ⟨by simp [applyWrites_length], ?_, ?_, ?_⟩
  · rw [applyWrites_getElem?_of_not_mem _ _ _ hx, List.getElem?_replicate,
      if_pos hi]
  · rw [applyWrites_getElem?_of_not_mem _ _ _ hd, List.getElem?_replicate,
      if_pos hi]
  · rw [applyWrites_getElem?_of_not_mem _ _ _ hdel, List.getElem?_replicate,
      if_pos hi]

/-- C10 witness: `N = 1`, `max_steps = 4`, `mean_count = 2`, `align = -1`,
the kernel wrote only row `0` of `xyzs`; row `1` is returned and is zero. -/
theorem march_train_amortized_witness :
    (march_rays_train_fwd 1 4 2 (-1) false [(0, (1, 2, 3))] [] [] 7).xyzs.length =
      (march_train_capacity 1 4 2 (-1) false).toNat ∧
    (march_rays_train_fwd 1 4 2 (-1) false
        [(0, (1, 2, 3))] [] [] 7).xyzs[1]? = some (0, 0, 0) ∧
    (march_rays_train_fwd 1 4 2 (-1) false
        [(0, (1, 2, 3))] [] [] 7).dirs[1]? = some (0, 0, 0) ∧
    (march_rays_train_fwd 1 4 2 (-1) false
        [(0, (1, 2, 3))] [] [] 7).deltas[1]? = some (0, 0) :=
  march_train_amortized_full_length_zero_rows 1 4 2 (-1)
    [(0, (1, 2, 3))] [] [] 7 (by norm_num) 1 (by decide) (by decide) (by decide)
    (by decide)

/-! ## Morton encoding (`_morton3D` / `_morton3D_invert`, python lines 174-224)

Modelled from the spec: the CUDA kernels `_backend.morton3D` and
`_backend.morton3D_invert` are not under `src/`; only their python wrappers
are.  Spec §4.1: `encode` interleaves the bits of the three coordinates of a
cell in `[0, H)³` into a single Morton code in `[0, H³)` and must be a
bijection on that domain; `decode` is its exact inverse.  The python wrapper
documents the coordinate domain as `[0, 128)`, so the resolution is a power
of two `H = 2^k`; the embedding is parametric in the bit width `k`. -/

/-- Modelled from the spec: bit-interleaving Morton encoder on `k`-bit
coordinates, lowest bits first (`x` at bit `3i`, `y` at `3i+1`, `z` at
`3i+2`). -/
def interleave3 : ℕ → ℕ → ℕ → ℕ → ℕ
  | 0, _, _, _ => 0
  | k + 1, x, y, z =>
      x % 2 + 2 * (y % 2) + 4 * (z % 2) +
        8 * interleave3 k (x / 2) (y / 2) (z / 2)

/-- Modelled from the spec: Morton decoder, de-interleaving a `3k`-bit code
into its three coordinates. -/
def deinterleave3 : ℕ → ℕ → ℕ × ℕ × ℕ
  | 0, _ => (0, 0, 0)
  | k + 1, m =>
      (m % 2 + 2 * (deinterleave3 k (m / 8)).1,
       m / 2 % 2 + 2 * (deinterleave3 k (m / 8)).2.1,
       m / 4 % 2 + 2 * (deinterleave3 k (m / 8)).2.2)

theorem interleave3_lt (k : ℕ) :
    ∀ x y z : ℕ, x < 2 ^ k → y < 2 ^ k → z < 2 ^ k →
      interleave3 k x y z < 8 ^ k := by
  induction k with
  | zero => intro x y z hx hy hz; simp [interleave3]
  | succ k ih =>
    intro x y z hx hy hz
    have h2 : (2 : ℕ) ^ (k + 1) = 2 * 2 ^ k := by rw [pow_succ]; ring
    have h8 : (8 : ℕ) ^ (k + 1) = 8 * 8 ^ k := by rw [pow_succ]; ring
    have hr := ih (x / 2) (y / 2) (z / 2) (by omega) (by omega) (by omega)
    simp only [interleave3]
    omega

theorem deinterleave3_interleave3 (k : ℕ) :
    ∀ x y z : ℕ, x < 2 ^ k → y < 2 ^ k → z < 2 ^ k →
      deinterleave3 k (interleave3 k x y z) = (x, y, z) := by
  induction k with
  | zero =>
    intro x y z hx hy hz
    simp only [pow_zero, Nat.lt_one_iff] at hx hy hz
    subst hx; subst hy; subst hz
    rfl
  | succ k ih =>
    intro x y z hx hy hz
    have h2 : (2 : ℕ) ^ (k + 1) = 2 * 2 ^ k := by rw [pow_succ]; ring
    have hr := ih (x / 2) (y / 2) (z / 2) (by omega) (by omega) (by omega)
    simp only [interleave3, deinterleave3]
    have hdiv :
        (x % 2 + 2 * (y % 2) + 4 * (z % 2) +
            8 * interleave3 k (x / 2) (y / 2) (z / 2)) / 8 =
          interleave3 k (x / 2) (y / 2) (z / 2) := by omega
    rw [hdiv, hr]
    simp only [Prod.mk.injEq]
    refine ⟨by omega, by omega, by omega⟩

theorem deinterleave3_lt (k : ℕ) :
    ∀ m : ℕ, m < 8 ^ k →
      (deinterleave3 k m).1 < 2 ^ k ∧ (deinterleave3 k m).2.1 < 2 ^ k ∧
        (deinterleave3 k m).2.2 < 2 ^ k := by
  induction k with
  | zero => intro m hm; simp [deinterleave3]
  | succ k ih =>
    intro m hm
    have h2 : (2 : ℕ) ^ (k + 1) = 2 * 2 ^ k := by rw [pow_succ]; ring
    have h8 : (8 : ℕ) ^ (k + 1) = 8 * 8 ^ k := by rw [pow_succ]; ring
    have hr := ih (m / 8) (by omega)
    simp only [deinterleave3]
    omega

theorem interleave3_deinterleave3 (k : ℕ) :
    ∀ m : ℕ, m < 8 ^ k →
      interleave3 k (deinterleave3 k m).1 (deinterleave3 k m).2.1
        (deinterleave3 k m).2.2 = m := by
  induction k with
  | zero =>
    intro m hm
    simp only [pow_zero, Nat.lt_one_iff] at hm
    subst hm
    rfl
  | succ k ih =>
    intro m hm
    have h8 : (8 : ℕ) ^ (k + 1) = 8 * 8 ^ k := by rw [pow_succ]; ring
    have hr := ih (m / 8) (by omega)
    simp only [deinterleave3, interleave3]
    rcases hD : deinterleave3 k (m / 8) with ⟨a, b, c⟩
    rw [hD] at hr
    simp only at hr ⊢
    have e1 : (m % 2 + 2 * a) % 2 = m % 2 := by omega
    have e2 : (m % 2 + 2 * a) / 2 = a := by omega
    have e3 : (m / 2 % 2 + 2 * b) % 2 = m / 2 % 2 := by omega
    have e4 : (m / 2 % 2 + 2 * b) / 2 = b := by omega
    have e5 : (m / 4 % 2 + 2 * c) % 2 = m / 4 % 2 := by omega
    have e6 : (m / 4 % 2 + 2 * c) / 2 = c := by omega
    rw [e1, e2, e3, e4, e5, e6, hr]
    omega

/-- C6: for a grid resolution `H = 2^k`, the Morton decoder inverts the
encoder on every coordinate triple in `[0, H)³`, and the encoder is a
bijection from `[0, H)³` onto `[0, H³)`. -/
theorem morton3D_roundtrip_bijection (k : ℕ) :
    (∀ x y z : ℕ, x < 2 ^ k → y < 2 ^ k → z < 2 ^ k →
      deinterleave3 k (interleave3 k x y z) = (x, y, z)) ∧
    Set.BijOn (fun p : ℕ × ℕ × ℕ => interleave3 k p.1 p.2.1 p.2.2)
      {p : ℕ × ℕ × ℕ | p.1 < 2 ^ k ∧ p.2.1 < 2 ^ k ∧ p.2.2 < 2 ^ k}
      {m : ℕ | m < (2 ^ k) ^ 3} := by
  have hpow : ((2 : ℕ) ^ k) ^ 3 = 8 ^ k := by
    rw [← pow_mul, show (8 : ℕ) = 2 ^ 3 from rfl, ← pow_mul, Nat.mul_comm]
  refine ⟨deinterleave3_interleave3 k, ?_, ?_, ?_⟩
  · rintro ⟨x, y, z⟩ ⟨hx, hy, hz⟩
    simpa [hpow] using interleave3_lt k x y z hx hy hz
  · rintro ⟨x, y, z⟩ ⟨hx, hy, hz⟩ ⟨x', y', z'⟩ ⟨hx', hy', hz'⟩ h
    have h1 := deinterleave3_interleave3 k x y z hx hy hz
    have h2 := deinterleave3_interleave3 k x' y' z' hx' hy' hz'
    simp only at h
    rw [h, h2] at h1
    exact h1.symm
  · rintro m hm
    have hm' : m < 8 ^ k := by simpa [hpow] using hm
    have hlt := deinterleave3_lt k m hm'
    refine ⟨deinterleave3 k m, ⟨hlt.1, hlt.2.1, hlt.2.2⟩, ?_⟩
    exact interleave3_deinterleave3 k m hm'

/-- C6 witness: at resolution `H = 2^7 = 128` (the wrapper's documented
domain), the round trip at `(3, 5, 9)` returns `(3, 5, 9)`. -/
theorem morton3D_roundtrip_witness :
    deinterleave3 7 (interleave3 7 3 5 9) = (3, 5, 9) :=
  (morton3D_roundtrip_bijection 7).1 3 5 9 (by norm_num) (by norm_num)
    (by norm_num)

/-! ## `_packbits` (python lines 227-253)

Modelled from the spec: the CUDA kernel `_backend.packbits` is not under
`src/`; the python wrapper only flattens the `[C, H³]` grid, computes
`N = C * H³ // 8` and allocates the `uint8` bitfield of that length.
Spec §4.1/§6: 8 consecutive Morton-ordered cells pack into one byte; bit `b`
of byte `⌊i/8⌋` is `1` iff `grid[i] > threshold`, for `i = 8⌊i/8⌋ + b`. -/

/-- Modelled from the spec: one byte of the bitfield, bit `b` set iff the
`b`-th of its 8 consecutive cells is occupied. -/
def byteOf (f : ℕ → Bool) : ℕ :=
  (f 0).toNat + 2 * (f 1).toNat + 4 * (f 2).toNat + 8 * (f 3).toNat +
    16 * (f 4).toNat + 32 * (f 5).toNat + 64 * (f 6).toNat +
    128 * (f 7).toNat

/-- Bit `b` of a byte. -/
def getBit (v b : ℕ) : ℕ :=
  v / 2 ^ b % 2

/-- Modelled from the spec: `packbits` over the flattened grid, one byte per
8 consecutive cells, cell `i` occupied iff `grid[i] > thresh`. -/
def packbits (grid : List ℚ) (thresh : ℚ) : List ℕ :=
  (List.range (grid.length / 8)).map
    (fun n => byteOf (fun b => decide (thresh < grid.getD (8 * n + b) 0)))

theorem getBit_byteOf (f : ℕ → Bool) (b : ℕ) (hb : b < 8) :
    getBit (byteOf f) b = (f b).toNat := by
  have h0 : (f 0).toNat ≤ 1 := by cases f 0 <;> simp
  have h1 : (f 1).toNat ≤ 1 := by cases f 1 <;> simp
  have h2 : (f 2).toNat ≤ 1 := by cases f 2 <;> simp
  have h3 : (f 3).toNat ≤ 1 := by cases f 3 <;> simp
  have h4 : (f 4).toNat ≤ 1 := by cases f 4 <;> simp
  have h5 : (f 5).toNat ≤ 1 := by cases f 5 <;> simp
  have h6 : (f 6).toNat ≤ 1 := by cases f 6 <;> simp
  have h7 : (f 7).toNat ≤ 1 := by cases f 7 <;> simp
  unfold getBit byteOf
  interval_cases b <;> norm_num <;> omega

/-- C7: for a dense grid of shape `[C, H³]` with `H` even, `packbits`
produces a bitfield of `C * H³ / 8` bytes in which, for every cascade
`c < C` and Morton index `m < H³` (flat index `i = c * H³ + m`), bit
`i % 8` of byte `i / 8` is `1` iff `grid[i] > threshold`. -/
theorem packbits_length_bit_layout (C H : ℕ) (hH : 2 ∣ H) (grid : List ℚ)
    (hlen : grid.length = C * H ^ 3) (thresh : ℚ) (c m : ℕ)
    (hc : c < C) (hm : m < H ^ 3) :
    (packbits grid thresh).length = C * H ^ 3 / 8 ∧
    (getBit ((packbits grid thresh).getD ((c * H ^ 3 + m) / 8) 0)
        ((c * H ^ 3 + m) % 8) = 1 ↔
      thresh < grid.getD (c * H ^ 3 + m) 0) := by
  obtain ⟨h, rfl⟩ := hH
  have h8 : (2 * h) ^ 3 = 8 * h ^ 3 := by ring
  have hjlt : c * (2 * h) ^ 3 + m < C * (2 * h) ^ 3 := by
    have hcc : c + 1 ≤ C := hc
    calc c * (2 * h) ^ 3 + m < (c + 1) * (2 * h) ^ 3 := by
          rw [add_mul, one_mul]
          omega
      _ ≤ C * (2 * h) ^ 3 := Nat.mul_le_mul_right _ hcc
  constructor
  · simp [packbits, hlen]
  · have hidx : (c * (2 * h) ^ 3 + m) / 8 < grid.length / 8 := by
      rw [hlen]
      rw [h8] at hjlt ⊢
      have hdvd : C * (8 * h ^ 3) = 8 * (C * h ^ 3) := by ring
      omega
    have hbyte : (packbits grid thresh).getD ((c * (2 * h) ^ 3 + m) / 8) 0 =
        byteOf (fun b => decide
          (thresh < grid.getD (8 * ((c * (2 * h) ^ 3 + m) / 8) + b) 0)) := by
      rw [packbits, List.getD_eq_getElem?_getD, List.getElem?_map,
        List.getElem?_range hidx]
      rfl
    rw [hbyte, getBit_byteOf _ _ (Nat.mod_lt _ (by norm_num))]
    have hsplit : 8 * ((c * (2 * h) ^ 3 + m) / 8) +
        (c * (2 * h) ^ 3 + m) % 8 = c * (2 * h) ^ 3 + m := by omega
    rw [hsplit, Bool.toNat_eq_one, decide_eq_true_iff]

/-- C7 witness: `C = 1`, `H = 2`, a concrete 8-cell grid with threshold
`1/2`; cell `3` (value `1`) is occupied, so bit `3` of byte `0` is set. -/
theorem packbits_length_bit_layout_witness :
    (packbits [0, 0, 0, 1, 0, 0, 0, 0] (1 / 2)).length = 1 * 2 ^ 3 / 8 ∧
    (getBit ((packbits [0, 0, 0, 1, 0, 0, 0, 0] (1 / 2)).getD
        ((0 * 2 ^ 3 + 3) / 8) 0) ((0 * 2 ^ 3 + 3) % 8) = 1 ↔
      (1 / 2 : ℚ) < [0, 0, 0, 1, 0, 0, 0, 0].getD (0 * 2 ^ 3 + 3) 0) :=
  packbits_length_bit_layout 1 2 ⟨1, rfl⟩ [0, 0, 0, 1, 0, 0, 0, 0]
    (by rfl) (1 / 2) 0 3 (by norm_num) (by norm_num)

/-! ## `_compact_rays` (python lines 562-580)

Modelled from the spec: the CUDA kernel `_backend.compact_rays` is not under
`src/`; the python wrapper only forwards the buffers.  Spec §4.6: the
compactor scans the first `n_alive` entries, removes rays with
`rays_t < 0` (the dead-ray sentinel) and writes the survivors to the front
of the output arrays, preserving their relative order. -/

/-- Modelled from the spec: order-preserving compaction of the alive set.
Returns the compacted prefixes of `rays_alive` and `rays_t`. -/
def compact_rays (n_alive : ℕ) (rays_alive_old : List ℤ)
    (rays_t_old : List ℚ) : List ℤ × List ℚ :=
  ((((rays_alive_old.zip rays_t_old).take n_alive).filter
      (fun p => decide (0 ≤ p.2))).map Prod.fst,
   (((rays_alive_old.zip rays_t_old).take n_alive).filter
      (fun p => decide (0 ≤ p.2))).map Prod.snd)

theorem zip_take_take {α β : Type} :
    ∀ (n : ℕ) (a : List α) (b : List β),
      (a.zip b).take n = (a.take n).zip (b.take n) := by
  intro n
  induction n with
  | zero => intro a b; rfl
  | succ n ih =>
    intro a b
    cases a with
    | nil => rfl
    | cons x a =>
      cases b with
      | nil => rfl
      | cons y b => simp [List.zip_cons_cons, ih]

/-- C9: on an alive set whose first `n_alive` entries contain no dead ray
(`rays_t < 0`), `compact_rays` returns those entries unchanged in content
and order. -/
theorem compact_rays_idempotent_on_compact (n_alive : ℕ) (a : List ℤ)
    (t : List ℚ) (hn : n_alive ≤ a.length) (hn' : n_alive ≤ t.length)
    (hall : ∀ p ∈ (a.zip t).take n_alive, 0 ≤ p.2) :
    compact_rays n_alive a t = (a.take n_alive, t.take n_alive) := by
  unfold compact_rays
  have hfil : ((a.zip t).take n_alive).filter (fun p => decide (0 ≤ p.2)) =
      (a.zip t).take n_alive := by
    rw [List.filter_eq_self]
    intro p hp
    simpa using hall p hp
  rw [hfil, zip_take_take]
  have hla : (a.take n_alive).length = n_alive := by
    rw [List.length_take]
    omega
  have hlt : (t.take n_alive).length = n_alive := by
    rw [List.length_take]
    omega
  rw [List.map_fst_zip _ _ (by omega), List.map_snd_zip _ _ (by omega)]

/-- C9 witness: a concrete compact alive set `rays_alive = [5, 7]`,
`rays_t = [1, 2]`, `n_alive = 2` is returned unchanged. -/
theorem compact_rays_idempotent_witness :
    compact_rays 2 [5, 7] [1, 2] = ([5, 7].take 2, [1, 2].take 2) :=
  compact_rays_idempotent_on_compact 2 [5, 7] [1, 2] (by norm_num)
    (by norm_num) (by decide)

/-! ## `_march_rays_train.backward` (python lines 359-390)

The backward builds
`segments = torch.cat([rays[:, 1], rays[-1:, 1] + rays[-1:2]])` and then
scatter-sums with `segment_csr`, multiplying `dL_dxyzs` by
`rearrange(ts, "n -> n 1")`.  The tensor operations are embedded with their
python/torch shape rules: python slice normalization, torch broadcasting for
the shapes that occur, `torch.cat`'s same-rank requirement, einops
`rearrange`'s rank check, and `torch_scatter.segment_csr`. -/

/-- A rank-tagged integer tensor (1-D or 2-D). -/
inductive ITensor where
  | t1 : List ℤ → ITensor
  | t2 : List (List ℤ) → ITensor

/-- A rank-tagged rational tensor (1-D or 2-D). -/
inductive QTensor where
  | t1 : List ℚ → QTensor
  | t2 : List (List ℚ) → QTensor

/-- Normalize one end of a python slice `l[start:stop]` against a length:
negative indices count from the end, and both ends are clamped to
`[0, len]`. -/
def pySliceIdx (len : ℕ) (i : ℤ) : ℕ :=
  if i < 0 then ((len : ℤ) + i).toNat else min i.toNat len

/-- Python row slice `l[start:stop]`. -/
def pySlice {α : Type} (start stop : ℤ) (l : List α) : List α :=
  (l.take (pySliceIdx l.length stop)).drop (pySliceIdx l.length start)

/-- Concatenation `torch.cat` along dim 0: the operands must have the same
number of dimensions (the legacy exception covers only 1-D empty tensors,
which are `ITensor.t1 []` here). -/
def pyCat : ITensor → ITensor → Except String ITensor
  | .t1 a, .t1 b => .ok (.t1 (a ++ b))
  | .t2 a, .t2 b => .ok (.t2 (a ++ b))
  | _, _ => .error "torch.cat: tensors must have same number of dimensions"

/-- Broadcast addition of a 1-D tensor with a 2-D tensor, for the shapes
reaching it here: a `[1]` tensor broadcasts against any `[r, c]`; an empty
`[0]` tensor does not broadcast against `[r, c]`. -/
def broadcastAdd1 (a : List ℤ) (b : List (List ℤ)) : Except String ITensor :=
  match a with
  | [v] => .ok (.t2 (b.map (fun row => row.map (fun x => v + x))))
  | _ => .error "broadcast: operands could not be broadcast together"

/-- einops `rearrange(t, "n -> n 1")`: the pattern demands a 1-D input. -/
def rearrange_n_to_n1 (t : QTensor) : Except String (List (List ℚ)) :=
  match t with
  | .t1 l => .ok (l.map (fun x => [x]))
  | .t2 _ => .error "einops rearrange: expected 1 axis, tensor has 2 axes"

/-- A `segment_csr` index pointer must be one-dimensional. -/
def asIndptr : ITensor → Except String (List ℤ)
  | .t1 l => .ok l
  | .t2 _ => .error "segment_csr: indptr must be one-dimensional"

/-- Pointwise sum of two rows. -/
def rowAdd (r s : List ℚ) : List ℚ :=
  List.zipWith (fun x y => x + y) r s

/-- Sum of a list of rows of the given width. -/
def sumRows (width : ℕ) (rows : List (List ℚ)) : List ℚ :=
  rows.foldr rowAdd (List.replicate width 0)

/-- `torch_scatter.segment_csr` on `[M, 3]` sources: row `i` of the output
is the sum of the source rows in `[indptr[i], indptr[i+1])`. -/
def segment_csr (src : List (List ℚ)) (indptr : List ℤ) : List (List ℚ) :=
  (List.range (indptr.length - 1)).map (fun i =>
    sumRows 3 ((src.take (indptr.getD (i + 1) 0).toNat).drop
      (indptr.getD i 0).toNat))

/-- Elementwise product of an `[M, 3]` tensor with an `[M, 1]` tensor
(column broadcast). -/
def mulBroadcastCol (a : List (List ℚ)) (t : List (List ℚ)) :
    List (List ℚ) :=
  List.zipWith (fun row trow => row.map (fun x => x * trow.getD 0 0)) a t

/-- Elementwise sum of two `[M, 3]` tensors. -/
def addTensors (a b : List (List ℚ)) : List (List ℚ) :=
  List.zipWith rowAdd a b

/-- The `segments` expression of the backward:
`torch.cat([rays[:, 1], rays[-1:, 1] + rays[-1:2]])`.  Note that
`rays[-1:2]` is the ROW slice `rays[-1:2, :]` of the `[N, 3]` tensor, not
the scalar `rays[-1:, 2]` that the comment above it (start of the last
segment plus its length) describes. -/
def segments_code (rays : List (List ℤ)) : Except String ITensor := do
  let starts := rays.map (fun r => r.getD 1 0)
  let lastStart := (pySlice (-1) (rays.length : ℤ) rays).map
    (fun r => r.getD 1 0)
  let lastRows := pySlice (-1) 2 rays
  let s ← broadcastAdd1 lastStart lastRows
  pyCat (.t1 starts) s

/-- Embedding of `_march_rays_train.backward`: saved `rays : [N, 3]` and
`ts` (allocated as `torch.zeros(M, 1)` in the forward, hence 2-D), incoming
per-sample gradients `dL_dxyzs, dL_ddirs : [M, 3]`; returns
`(dL_drays_o, dL_drays_d)`. -/
def march_rays_train_backward (rays : List (List ℤ)) (ts : QTensor)
    (dL_dxyzs dL_ddirs : List (List ℚ)) :
    Except String (List (List ℚ) × List (List ℚ)) := do
  let segments ← segments_code rays
  let ptr ← asIndptr segments
  let dL_drays_o := segment_csr dL_dxyzs ptr
  let tsCol ← rearrange_n_to_n1 ts
  let dL_drays_d := segment_csr
    (addTensors (mulBroadcastCol dL_dxyzs tsCol) dL_ddirs) ptr
  return (dL_drays_o, dL_drays_d)

/-- C1: evaluation of the backward at a concrete batch.  With the saved
`rays = [[0, 0, 2], [1, 2, 3]]` (two rays, segments `[0, 2)` and `[2, 5)`)
and `ts = zeros(5, 1)`, the backward does not produce the per-ray segment
sums: its first statement already raises, because `rays[-1:2]` row-slices
the rays tensor (yielding a `[1, 3]` tensor that `torch.cat` rejects next to
the 1-D `rays[:, 1]`) where the intended end boundary `rays[-1:, 1] +
rays[-1:, 2]` needs the last ray's sample count; `rearrange(ts, "n -> n 1")`
on the 2-D saved `ts` would fail afterwards as well. -/
theorem march_rays_train_backward_raises_at_concrete_input :
    march_rays_train_backward [[0, 0, 2], [1, 2, 3]]
      (.t2 [[0], [0], [0], [0], [0]])
      [[1, 0, 0], [0, 1, 0], [0, 0, 1], [1, 1, 1], [2, 2, 2]]
      [[0, 0, 0], [0, 0, 0], [0, 0, 0], [0, 0, 0], [0, 0, 0]] =
    Except.error "torch.cat: tensors must have same number of dimensions" :=
  rfl

end Raymarching
